import Mathlib

/-!
Shallow embedding of `avsfldrs` (`src/lib.rs`), a reader/writer for AVS FLD
files.  Bytes are modelled as `Nat` values (0–255), byte streams as
`List Nat`, and `f32` values by their IEEE-754 bit pattern (`F32`).  Rust
control flow is modelled with the four-way outcome type `ROut`:

* `ROut.ok`      — the function returns `Ok`;
* `ROut.err`     — the function returns `Err` (the `Error` enum of the library);
* `ROut.panic`   — the Rust code panics (out-of-bounds `Vec`/slice index);
* `ROut.diverge` — the code loops forever.

The one justified use of `diverge`: the header loop of `AVSFile::open` calls
`reader.read(&mut new_char_buf)` on a fresh `[0u8]` buffer and ignores the
returned byte count, so once the stream hits end-of-file every iteration sees
`new_char = 0`, which is neither the sentinel (12) nor a newline (10); the
loop therefore runs forever.  An exhausted input list is mapped to
`ROut.diverge` for exactly this reason.
-/

set_option autoImplicit false
set_option maxRecDepth 100000

/-- Mirror of the `Error` enum of the library.  `ioErr` stands for the variant
named after input/output failures, the other names match the source. -/
inductive RError where
  | ioErr
  | parse
  | dataType
  | fieldType
  | malformed
  | notImplemented
  deriving DecidableEq, Repr

/-- Outcome of running a piece of the Rust code (see the module docstring). -/
inductive ROut (α : Type) where
  | ok (a : α)
  | err (e : RError)
  | panic
  | diverge
  deriving DecidableEq, Repr

/-- Mirror of `enum DataType { XDRFloat, FloatLE, Byte }`. -/
inductive DataType where
  | XDRFloat
  | FloatLE
  | Byte
  deriving DecidableEq, Repr

/-- Mirror of `enum FieldType { Uniform }`. -/
inductive FieldType where
  | Uniform
  deriving DecidableEq, Repr

/-- An `f32` value, represented by its IEEE-754 single-precision bit
pattern (a `Nat` below `2 ^ 32`).  The Rust code only ever transmutes
between `[u8; 4]` and `f32` (little-endian host) and widens a `u8`, so the
bit pattern determines everything the library observes. -/
structure F32 where
  bits : Nat
  deriving DecidableEq, Repr

/-- Floor of the base-2 logarithm, by structural recursion on a fuel bound
(`fuel ≥ n` suffices since halving reaches 1 within `n` steps). -/
def log2Aux : Nat → Nat → Nat
  | 0, _ => 0
  | fuel + 1, n => if 2 ≤ n then log2Aux fuel (n / 2) + 1 else 0

/-- The IEEE-754 single-precision bit pattern of the exact float of a small
natural number (used for the Rust cast `buf[0] as f32`, whose argument is a
byte, hence exactly representable: the mantissa shift `23 - e` never
underflows for `n < 2 ^ 24`). -/
def f32bitsOfNat (n : Nat) : Nat :=
  if n = 0 then 0
  else
    let e := log2Aux n n
    (e + 127) * 2 ^ 23 + (n - 2 ^ e) * 2 ^ (23 - e)

/-- Bytes of the string `"float_le"`. -/
def floatLeStr : List Nat := [102, 108, 111, 97, 116, 95, 108, 101]

/-- Bytes of the string `"xdr_float"`. -/
def xdrFloatStr : List Nat := [120, 100, 114, 95, 102, 108, 111, 97, 116]

/-- Bytes of the string `"byte"`. -/
def byteStr : List Nat := [98, 121, 116, 101]

/-- Bytes of the string `"uniform"`. -/
def uniformStr : List Nat := [117, 110, 105, 102, 111, 114, 109]

/-- Mirror of `DataType::from_str`. -/
def DataType.from_str (s : List Nat) : Except RError DataType :=
  if s = floatLeStr then .ok .FloatLE
  else if s = xdrFloatStr then .ok .XDRFloat
  else if s = byteStr then .ok .Byte
  else .error .dataType

/-- Mirror of `DataType::num_bytes`. -/
def DataType.num_bytes : DataType → Nat
  | .XDRFloat => 4
  | .FloatLE => 4
  | .Byte => 1

/-- Mirror of `DataType::convert_to_f32`.  The Rust code transmutes a
4-byte array to `f32` on a little-endian host, so the resulting bit pattern
reads the array bytes in little-endian order.  `XDRFloat` first builds
`[buf[3], buf[2], buf[1], buf[0]]`; `FloatLE` uses `[buf[0], .., buf[3]]`;
`Byte` casts `buf[0]` to `f32` by numeric value.  Callers always pass a
slice of length `num_bytes`, so the `getD` defaults are never read. -/
def DataType.convert_to_f32 (dt : DataType) (buf : List Nat) : F32 :=
  match dt with
  | .XDRFloat =>
      ⟨buf.getD 3 0 + 256 * buf.getD 2 0 + 65536 * buf.getD 1 0 +
        16777216 * buf.getD 0 0⟩
  | .FloatLE =>
      ⟨buf.getD 0 0 + 256 * buf.getD 1 0 + 65536 * buf.getD 2 0 +
        16777216 * buf.getD 3 0⟩
  | .Byte => ⟨f32bitsOfNat (buf.getD 0 0)⟩

/-- Mirror of `FieldType::from_str`. -/
def FieldType.from_str (s : List Nat) : Except RError FieldType :=
  if s = uniformStr then .ok .Uniform else .error .fieldType

/-- The in-progress header state of `AVSFile::open`: the five local
`Option` variables declared before the byte loop. -/
structure ScanState where
  ndim : Option Nat
  sizes : List (Option Nat)
  data_type : Option DataType
  field_type : Option FieldType
  external : Option (List Nat)
  deriving DecidableEq, Repr

/-- The initial header state (`None`/empty everywhere). -/
def initState : ScanState := ⟨none, [], none, none, none⟩

/-- Whitespace predicate of the Rust `char::is_whitespace` restricted to code
points below 256, which is all a byte pushed as `new_char as char` can be:
tab, LF, VT, FF, CR, space, NEL (U+0085) and NBSP (U+00A0). -/
def isRustWs (b : Nat) : Bool :=
  b = 9 || b = 10 || b = 11 || b = 12 || b = 13 || b = 32 || b = 133 || b = 160

/-- Mirror of `str::trim` on the byte list. -/
def trimBytes (s : List Nat) : List Nat :=
  ((s.dropWhile isRustWs).reverse.dropWhile isRustWs).reverse

/-- Mirror of splitting the line at the byte `=` (61): splits at every `=`; always
returns at least one (possibly empty) segment. -/
def splitOnEq : List Nat → List (List Nat)
  | [] => [[]]
  | b :: rest =>
    if b = 61 then [] :: splitOnEq rest
    else
      match splitOnEq rest with
      | [] => [[b]]
      | t :: ts => (b :: t) :: ts

/-- Mirror of splitting the line at every `=` and trimming each segment. -/
def tokensOf (line : List Nat) : List (List Nat) :=
  (splitOnEq line).map trimBytes

/-- Mirror of `str::parse::<usize>` on a trimmed token: an optional leading
`+` (byte 43) followed by at least one ASCII digit, rejecting values that
overflow the 64-bit `usize`.  `none` corresponds to `Err(ParseIntError)`. -/
def parseUsize (s : List Nat) : Option Nat :=
  let t := match s with
    | 43 :: rest => rest
    | _ => s
  if t = [] then none
  else if t.all (fun b => 48 ≤ b && b ≤ 57) then
    let v := t.foldl (fun acc b => acc * 10 + (b - 48)) 0
    if v < 2 ^ 64 then some v else none
  else none

/-- Bytes of the header key `"ndim"`. -/
def ndimKey : List Nat := [110, 100, 105, 109]

/-- Bytes of `"dim1"` … `"dim7"`: `"dim"` followed by the ASCII digit. -/
def dimKey (k : Nat) : List Nat := [100, 105, 109, 48 + k]

/-- Bytes of the header key `"data"`. -/
def dataKey : List Nat := [100, 97, 116, 97]

/-- Bytes of the header key `"field"`. -/
def fieldKey : List Nat := [102, 105, 101, 108, 100]

/-- Bytes of the header key `"variable 1 file"`. -/
def variableFileKey : List Nat :=
  [118, 97, 114, 105, 97, 98, 108, 101, 32, 49, 32, 102, 105, 108, 101]

/-- The `"ndim"` match arm: `ndim = Some(try!(tokens[1].parse::<usize>()))`
followed by pushing `nd` unset size slots.  `tokens[1]` on a one-token line
is an out-of-bounds index, hence a panic. -/
def setNdim (st : ScanState) (toks : List (List Nat)) : ROut ScanState :=
  match toks.get? 1 with
  | none => .panic
  | some v =>
    match parseUsize v with
    | none => .err .parse
    | some nd =>
      .ok { st with ndim := some nd,
                    sizes := st.sizes ++ List.replicate nd none }

/-- A `"dimN"` match arm: `sizes[idx] = Some(try!(tokens[1].parse()))`.
Rust evaluates the right-hand side (token access, then parse) before the
indexing of `sizes`, and the indexing panics when `idx` is out of bounds. -/
def setDim (st : ScanState) (toks : List (List Nat)) (idx : Nat) :
    ROut ScanState :=
  match toks.get? 1 with
  | none => .panic
  | some v =>
    match parseUsize v with
    | none => .err .parse
    | some n =>
      if idx < st.sizes.length then
        .ok { st with sizes := st.sizes.set idx (some n) }
      else .panic

/-- The `"data"` match arm. -/
def setData (st : ScanState) (toks : List (List Nat)) : ROut ScanState :=
  match toks.get? 1 with
  | none => .panic
  | some v =>
    match DataType.from_str v with
    | .error e => .err e
    | .ok dt => .ok { st with data_type := some dt }

/-- The `"field"` match arm. -/
def setField (st : ScanState) (toks : List (List Nat)) : ROut ScanState :=
  match toks.get? 1 with
  | none => .panic
  | some v =>
    match FieldType.from_str v with
    | .error e => .err e
    | .ok ft => .ok { st with field_type := some ft }

/-- The `"variable 1 file"` match arm. -/
def setExternal (st : ScanState) (toks : List (List Nat)) : ROut ScanState :=
  match toks.get? 1 with
  | none => .panic
  | some v => .ok { st with external := some v }

/-- Processing of one newline-terminated line buffer (the `match tokens[0]`
of `AVSFile::open`); the line passed in still carries its final `\n`, which
`trim` removes from the tokens. -/
def processLine (line : List Nat) (st : ScanState) : ROut ScanState :=
  if (tokensOf line).headD [] = ndimKey then setNdim st (tokensOf line)
  else if (tokensOf line).headD [] = dimKey 1 then setDim st (tokensOf line) 0
  else if (tokensOf line).headD [] = dimKey 2 then setDim st (tokensOf line) 1
  else if (tokensOf line).headD [] = dimKey 3 then setDim st (tokensOf line) 2
  else if (tokensOf line).headD [] = dimKey 4 then setDim st (tokensOf line) 3
  else if (tokensOf line).headD [] = dimKey 5 then setDim st (tokensOf line) 4
  else if (tokensOf line).headD [] = dimKey 6 then setDim st (tokensOf line) 5
  else if (tokensOf line).headD [] = dimKey 7 then setDim st (tokensOf line) 6
  else if (tokensOf line).headD [] = dataKey then setData st (tokensOf line)
  else if (tokensOf line).headD [] = fieldKey then setField st (tokensOf line)
  else if (tokensOf line).headD [] = variableFileKey then
    setExternal st (tokensOf line)
  else .ok st

/-- The byte loop of `AVSFile::open`: arguments are the remaining input
bytes, `last_char`, the current line buffer, and the header state.  Each
step first tests the sentinel pair `(new_char, last_char) == (12, 12)`
(returning the state and the unread rest of the stream), then pushes the
byte onto the line buffer, and on a newline (10) processes and clears the
buffer.  An exhausted input models end-of-file, where the real loop keeps
reading `0` bytes forever (see the module docstring), hence `diverge`. -/
def headerScan : List Nat → Nat → List Nat → ScanState →
    ROut (ScanState × List Nat)
  | [], _, _, _ => .diverge
  | b :: rest, last, line, st =>
    if b = 12 ∧ last = 12 then .ok (st, rest)
    else
      if b = 10 then
        match processLine (line ++ [b]) st with
        | .ok st2 => headerScan rest b [] st2
        | .err e => .err e
        | .panic => .panic
        | .diverge => .diverge
      else headerScan rest b (line ++ [b]) st

/-- Mirror of `struct AVSFile` without the reader (the payload stream is
passed explicitly to the read functions). -/
structure AVSFile where
  ndim : Nat
  sizes : List Nat
  data_type : DataType
  field_type : FieldType
  deriving DecidableEq, Repr

/-- Where the payload bytes come from after `open`: the rest of the header
stream, or a separate file named by the `variable 1 file` value. -/
inductive PayloadSrc where
  | inlineRest (bytes : List Nat)
  | externalFile (path : List Nat)
  deriving DecidableEq, Repr

/-- The per-index body of the finalization loop
`tr.sizes.push(try!(sizes[idx].ok_or(Error::Malformed)))`, run for
`idx = start, …, start + count - 1`: a missing slot (`None`) is a
`Malformed` error, an out-of-range index a panic. -/
def collectFrom (sizes : List (Option Nat)) : Nat → Nat → ROut (List Nat)
  | _, 0 => .ok []
  | idx, r + 1 =>
    match sizes.get? idx with
    | none => .panic
    | some none => .err .malformed
    | some (some v) =>
      match collectFrom sizes (idx + 1) r with
      | .ok tl => .ok (v :: tl)
      | .err e => .err e
      | .panic => .panic
      | .diverge => .diverge

/-- The finalization common to both arms of `match external`: the struct
literal evaluates `ndim.ok_or(Malformed)`, then `data_type`, then
`field_type`, then the loop copies the `ndim` size slots. -/
def mkFile (st : ScanState) : ROut AVSFile :=
  match st.ndim with
  | none => .err .malformed
  | some nd =>
    match st.data_type with
    | none => .err .malformed
    | some dt =>
      match st.field_type with
      | none => .err .malformed
      | some ft =>
        match collectFrom st.sizes 0 nd with
        | .ok szs => .ok ⟨nd, szs, dt, ft⟩
        | .err e => .err e
        | .panic => .panic
        | .diverge => .diverge

/-- Mirror of `AVSFile::open`.  `fs` models the ambient file system for the
external-payload redirect: `fs path` is the contents of the file at `path`,
or `none` when `File::open` would fail.  In the `Some(path)` arm the Rust
code opens the external file (possible I/O error) before any of the
`Malformed` completeness checks. -/
def AVSFile.openBytes (fs : List Nat → Option (List Nat)) (input : List Nat) :
    ROut (AVSFile × PayloadSrc) :=
  match headerScan input 0 [] initState with
  | .ok (st, rest) =>
    match st.external with
    | none =>
      match mkFile st with
      | .ok f => .ok (f, .inlineRest rest)
      | .err e => .err e
      | .panic => .panic
      | .diverge => .diverge
    | some path =>
      match fs path with
      | none => .err .ioErr
      | some _ =>
        match mkFile st with
        | .ok f => .ok (f, .externalFile path)
        | .err e => .err e
        | .panic => .panic
        | .diverge => .diverge
  | .err e => .err e
  | .panic => .panic
  | .diverge => .diverge

/-- The little-endian memory bytes of one `f32` value: what
`slice::from_raw_parts(data.as_ptr() as *const u8, ..)` exposes for a single
element on a little-endian host. -/
def f32LEBytes (x : F32) : List Nat :=
  [x.bits % 256, x.bits / 256 % 256, x.bits / 65536 % 256,
    x.bits / 16777216 % 256]

/-- The raw memory bytes of an `&[f32]` slice, in order. -/
def f32MemBytes (data : List F32) : List Nat :=
  (data.map f32LEBytes).flatten

/-- Decimal digits (as ASCII bytes) of a natural number, most significant
first, with fuel for structural recursion; `fuel ≥ n` suffices since `n / 10`
strictly decreases. -/
def decDigitsAux : Nat → Nat → List Nat
  | 0, _ => []
  | fuel + 1, n =>
    if n = 0 then [] else decDigitsAux fuel (n / 10) ++ [48 + n % 10]

/-- The ASCII bytes that the Rust `the Display formatting of format_args` produces for a
`usize` value. -/
def natDecBytes (n : Nat) : List Nat :=
  if n = 0 then [48] else decDigitsAux (n + 1) n

/-- Bytes of the fixed comment line
`"# AVS FLD file (written by avsfldrs github.com/greyhill/avsfldrs)\n"`. -/
def commentLine : List Nat :=
  [35, 32, 65, 86, 83, 32, 70, 76, 68, 32, 102, 105, 108, 101, 32, 40,
   119, 114, 105, 116, 116, 101, 110, 32, 98, 121, 32, 97, 118, 115, 102,
   108, 100, 114, 115, 32, 103, 105, 116, 104, 117, 98, 46, 99, 111, 109,
   47, 103, 114, 101, 121, 104, 105, 108, 108, 47, 97, 118, 115, 102, 108,
   100, 114, 115, 41, 10]

/-- Bytes of `"ndim="`. -/
def ndimEqBytes : List Nat := [110, 100, 105, 109, 61]

/-- Bytes of `"veclen=1\n"`. -/
def veclenLine : List Nat := [118, 101, 99, 108, 101, 110, 61, 49, 10]

/-- Bytes of `"nspace="`. -/
def nspaceEqBytes : List Nat := [110, 115, 112, 97, 99, 101, 61]

/-- Bytes of `"field=uniform\n"`. -/
def fieldUniformLine : List Nat :=
  [102, 105, 101, 108, 100, 61, 117, 110, 105, 102, 111, 114, 109, 10]

/-- Bytes of `"data=float_le\n"`. -/
def dataFloatLeLine : List Nat :=
  [100, 97, 116, 97, 61, 102, 108, 111, 97, 116, 95, 108, 101, 10]

/-- Bytes of `"dim"`. -/
def dimBytes : List Nat := [100, 105, 109]

/-- The dimension loop of the writer
`for (id, size) in dims.iter().enumerate()`, writing `dim{id+1}={size}\n`
for each extent, with `id` the running enumeration index. -/
def dimLines : Nat → List Nat → List Nat
  | _, [] => []
  | id, s :: rest =>
    dimBytes ++ natDecBytes (id + 1) ++ [61] ++ natDecBytes s ++ [10] ++
      dimLines (id + 1) rest

/-- Mirror of `AVSFile::write` for `T = f32`, returning the bytes written to
the stream (write failures of the underlying stream are out of scope): the
comment line, `ndim`, `veclen=1`, `nspace`, `field=uniform`, `data=float_le`,
the `dimK` lines, the two sentinel bytes, then the raw slice memory. -/
def AVSFile.write (dims : List Nat) (data : List F32) : List Nat :=
  commentLine ++
  (ndimEqBytes ++ natDecBytes dims.length ++ [10]) ++
  veclenLine ++
  (nspaceEqBytes ++ natDecBytes dims.length ++ [10]) ++
  fieldUniformLine ++
  dataFloatLeLine ++
  dimLines 0 dims ++
  [12, 12] ++
  f32MemBytes data

/-- The element loop of `AVSFile::read_to_f32`: for indices
`n, n + 1, …, n + count - 1` slice `buf[n * w .. (n + 1) * w]` (a panic when
the end of the slice range exceeds the buffer length, as for Rust range
indexing) and convert each slice. -/
def convPush (dt : DataType) (buf : List Nat) : Nat → Nat → ROut (List F32)
  | _, 0 => .ok []
  | n, k + 1 =>
    if (n + 1) * dt.num_bytes ≤ buf.length then
      match convPush dt buf (n + 1) k with
      | .ok tl =>
        .ok (dt.convert_to_f32
              ((buf.drop (n * dt.num_bytes)).take dt.num_bytes) :: tl)
      | .err e => .err e
      | .panic => .panic
      | .diverge => .diverge
    else .panic

/-- Mirror of `AVSFile::read_to_f32`; `payload` is everything
`read_to_end` obtains from the reader of the file.  The element count `size` is the fold
`sizes.iter().fold(1, |l, r| l * r)`. -/
def AVSFile.read_to_f32 (f : AVSFile) (payload : List Nat) :
    ROut (List F32) :=
  convPush f.data_type payload 0 (f.sizes.foldl (· * ·) 1)

/-! ### Derived notions used to state the claims -/

/-- The value of a 4-byte buffer reinterpreted as a 32-bit word in
little-endian order (how a `[u8; 4]` → `f32` transmute reads memory on a
little-endian host). -/
def leWord (bs : List Nat) : Nat :=
  bs.getD 0 0 + 256 * bs.getD 1 0 + 65536 * bs.getD 2 0 +
    16777216 * bs.getD 3 0

/-- The per-element decoding rule in the words of the specification:
`BigEndianFloat32` (`xdr_float`) reverses the 4 bytes and then reinterprets
them as IEEE-754 float32; `LittleEndianFloat32` (`float_le`) reinterprets
directly; `UnsignedByte` (`byte`) widens the single byte by numeric value. -/
def decodeElemSpec : DataType → List Nat → F32
  | .XDRFloat, bs => ⟨leWord (bs.take 4).reverse⟩
  | .FloatLE, bs => ⟨leWord (bs.take 4)⟩
  | .Byte, bs => ⟨f32bitsOfNat (bs.headD 0)⟩

/-- The dimension lines in the words of the specification: for each `k`
from 1 to `n` a line `dimk=dims[k-1]`. -/
def specDimLines (dims : List Nat) : List Nat :=
  (List.range' 1 dims.length).flatMap
    (fun k =>
      dimBytes ++ natDecBytes k ++ [61] ++ natDecBytes (dims.getD (k - 1) 0)
        ++ [10])

/-- The writer output in the words of the specification: one comment line,
`ndim=`n, `veclen=1`, `nspace=`n, `field=uniform`, `data=float_le`, the
`dimk` lines for `k` from 1 to `n`, the two sentinel bytes 0x0C 0x0C, then
the raw bytes of the data. -/
def specWriterOutput (dims : List Nat) (data : List F32) : List Nat :=
  commentLine ++
  ndimEqBytes ++ natDecBytes dims.length ++ [10] ++
  veclenLine ++
  nspaceEqBytes ++ natDecBytes dims.length ++ [10] ++
  fieldUniformLine ++
  dataFloatLeLine ++
  specDimLines dims ++
  [12, 12] ++
  f32MemBytes data

/-- The keys recognized by the header parser, in the order of the `match`
arms. -/
def recognizedKeys : List (List Nat) :=
  [ndimKey, dimKey 1, dimKey 2, dimKey 3, dimKey 4, dimKey 5, dimKey 6,
   dimKey 7, dataKey, fieldKey, variableFileKey]

/-- The extent-slot index targeted by a `dimN` key (`dimN` writes slot
`N - 1`), `none` for any other key. -/
def dimKeyIdx (k : List Nat) : Option Nat :=
  if k = dimKey 1 then some 0
  else if k = dimKey 2 then some 1
  else if k = dimKey 3 then some 2
  else if k = dimKey 4 then some 3
  else if k = dimKey 5 then some 4
  else if k = dimKey 6 then some 5
  else if k = dimKey 7 then some 6
  else none

/-- A header state that is incomplete in the sense of claim C7: the
dimension count, the encoding, the field kind, or one of the declared
extent slots was never populated. -/
def missingField (st : ScanState) : Prop :=
  st.ndim = none ∨ st.data_type = none ∨ st.field_type = none ∨
    (∃ nd, st.ndim = some nd ∧ ∃ i, i < nd ∧ st.sizes.get? i = some none)

/-- Position at which the sentinel test of the scan loop
`(new_char, last_char) == (12, 12)` first fires when the remaining input is
the given list and the previous byte was `last`. -/
def brkIdx : List Nat → Nat → Option Nat
  | [], _ => none
  | b :: rest, last =>
    if b = 12 ∧ last = 12 then some 0 else (brkIdx rest b).map (· + 1)

/-- Index of the first position of the byte list at which two consecutive
bytes both equal 12 (0x0C). -/
def firstPairIdx : List Nat → Option Nat
  | [] => none
  | b :: rest =>
    match rest with
    | [] => none
    | c :: _ =>
      if b = 12 ∧ c = 12 then some 0 else (firstPairIdx rest).map (· + 1)

/-- Invariant of the header scan: whenever `ndim` has been set, at least
that many size slots exist (so the indexing of the finalization loop cannot go
out of bounds). -/
def scanInv (st : ScanState) : Prop :=
  ∀ nd, st.ndim = some nd → nd ≤ st.sizes.length

/-- The six float32 values 1.0, 2.0, 3.0, 4.0, 5.0, 6.0 by their IEEE-754
bit patterns. -/
def c1Data : List F32 :=
  [⟨0x3F800000⟩, ⟨0x40000000⟩, ⟨0x40400000⟩, ⟨0x40800000⟩, ⟨0x40A00000⟩,
   ⟨0x40C00000⟩]

/-! ### Sanity checks of the float32 bit-pattern encoding -/

/-- The integer-to-float32 encoding gives the expected bit patterns for
1.0 … 6.0 (the patterns listed in `c1Data`). -/
theorem f32bitsOfNat_small :
    (List.range' 1 6).map (fun n => F32.mk (f32bitsOfNat n)) = c1Data := by
  decide

/-- Byte 200 widens to the float32 with bit pattern 0x43480000, which is
exactly 200.0. -/
theorem f32bitsOfNat_two_hundred : f32bitsOfNat 200 = 0x43480000 := by
  decide

/-- The big-endian float32 bytes 0x40 0x49 0x0F 0xDB decode (after the
byte reversal of the `xdr_float` path) to the bit pattern 0x40490FDB,
which is the closest float32 to π. -/
theorem xdr_pi_bytes :
    DataType.convert_to_f32 .XDRFloat [0x40, 0x49, 0x0F, 0xDB] =
      ⟨0x40490FDB⟩ := by
  decide

/-- The same four bytes decoded by the `float_le` path give a different
value (the check of the claim that byte reversal happens only for the
big-endian variant). -/
theorem le_pi_bytes_differ :
    DataType.convert_to_f32 .FloatLE [0x40, 0x49, 0x0F, 0xDB] =
      ⟨0xDB0F4940⟩ ∧
    (0xDB0F4940 : Nat) ≠ 0x40490FDB := by
  decide

/-! ### Claim C1: write/open/read round trip -/

/-- Claim C1: writing extents [2,3] with the six float32 values 1.0 … 6.0,
then opening the resulting byte stream and decoding it with `read_to_f32`,
yields the original extents [2,3] and the original six bit-exact float32
values. -/
theorem C1_round_trip :
    AVSFile.openBytes (fun _ => none) (AVSFile.write [2, 3] c1Data) =
      .ok (⟨2, [2, 3], .FloatLE, .Uniform⟩,
           .inlineRest (f32MemBytes c1Data)) ∧
    AVSFile.read_to_f32 ⟨2, [2, 3], .FloatLE, .Uniform⟩
      (f32MemBytes c1Data) = .ok c1Data := by
  decide

/-! ### Counterexamples -/

/-- Counterexample to claim C3 as stated: a file declaring 10 float32
elements (40 bytes) whose stream supplies only 36 bytes makes
`read_to_f32` panic on an out-of-bounds slice index; it does not return a
malformed-payload error. -/
theorem C3_short_payload_counterexample :
    AVSFile.read_to_f32 ⟨1, [10], .FloatLE, .Uniform⟩ (List.replicate 36 0)
      = .panic ∧
    AVSFile.read_to_f32 ⟨1, [10], .FloatLE, .Uniform⟩ (List.replicate 36 0)
      ≠ .err .malformed := by
  decide

/-- Counterexample to claim C4 as stated: the header line `ndim` (no `=`,
trimmed text equal to the recognized key), followed by the sentinel, makes
`open` panic on the out-of-bounds access `tokens[1]` instead of silently
ignoring the line (which would have led to a malformed-header error at
finalization). -/
theorem C4_bare_key_counterexample :
    AVSFile.openBytes (fun _ => none) (ndimKey ++ [10, 12, 12]) = .panic ∧
    AVSFile.openBytes (fun _ => none) (ndimKey ++ [10, 12, 12])
      ≠ .err .malformed := by
  decide

/-- Counterexample to claim C5 as stated: a `dim1=5` line processed before
any `ndim` line makes `open` panic on the out-of-bounds `sizes[0]`
assignment; it does not return an error to the caller. -/
theorem C5_dim_before_ndim_counterexample :
    AVSFile.openBytes (fun _ => none) (dimKey 1 ++ [61, 53, 10, 12, 12])
      = .panic ∧
    AVSFile.openBytes (fun _ => none) (dimKey 1 ++ [61, 53, 10, 12, 12])
      ≠ .err .malformed ∧
    AVSFile.openBytes (fun _ => none) (dimKey 1 ++ [61, 53, 10, 12, 12])
      ≠ .err .parse := by
  decide

/-- Counterexample to claim C6 as stated: for the header line
`variable 1 file = a=b` (bytes 32 61 32 97 61 98 after the key) the parser
stores the external path `"a"` (the trimmed text between the first and the
second `=`), not the full trimmed text `"a=b"` after the first `=`. -/
theorem C6_second_equals_counterexample :
    headerScan (variableFileKey ++ [32, 61, 32, 97, 61, 98, 10, 12, 12])
        0 [] initState =
      .ok ({ initState with external := some [97] }, []) ∧
    ([97] : List Nat) ≠ [97, 61, 98] := by
  decide

/-- Counterexample to claim C7 as stated: a sentinel-terminated header
whose only line is `variable 1 file=x`, opened when the file `x` does not
exist, returns an I/O error even though `ndim`, `data` and `field` were
never populated — the external redirect is opened before the
malformed-header completeness checks. -/
theorem C7_external_io_counterexample :
    AVSFile.openBytes (fun _ => none)
        (variableFileKey ++ [61, 120, 10, 12, 12]) = .err .ioErr ∧
    RError.ioErr ≠ RError.malformed := by
  decide

/-- Counterexample to claim C10 as stated: the input `ndim=x\n` reaches
end-of-input with no two consecutive 0x0C bytes, yet `open` terminates,
returning a header-value parse error from the `ndim` line. -/
theorem C10_terminates_counterexample :
    firstPairIdx (ndimKey ++ [61, 120, 10]) = none ∧
    AVSFile.openBytes (fun _ => none) (ndimKey ++ [61, 120, 10])
      = .err .parse := by
  decide

/-! ### The sentinel position of a successful header scan (claim C2) -/

/-- If the header scan returns successfully, the sentinel test fired at
some position `k` of the remaining input and the returned rest of the
stream is everything after that byte. -/
theorem headerScan_ok_brk (bs : List Nat) :
    ∀ last line st st' rest, headerScan bs last line st = .ok (st', rest) →
      ∃ k, brkIdx bs last = some k ∧ rest = bs.drop (k + 1) := by
  induction bs with
  | nil => intro last line st st' rest h; simp [headerScan] at h
  | cons b tl ih =>
    intro last line st st' rest h
    simp only [headerScan] at h
    split_ifs at h with hb hnl
    · obtain ⟨h1, h2⟩ : st = st' ∧ tl = rest := by simpa using h
      subst h1; subst h2
      exact ⟨0, by simp [brkIdx, hb], by simp⟩
    · cases hp : processLine (line ++ [b]) st with
      | ok st2 =>
        rw [hp] at h
        obtain ⟨k', hk', hr⟩ := ih b [] st2 st' rest h
        exact ⟨k' + 1, by simp [brkIdx, hb, hk'], by simpa using hr⟩
      | err e => rw [hp] at h; simp at h
      | panic => rw [hp] at h; simp at h
      | diverge => rw [hp] at h; simp at h
    · obtain ⟨k', hk', hr⟩ := ih b (line ++ [b]) st st' rest h
      exact ⟨k' + 1, by simp [brkIdx, hb, hk'], by simpa using hr⟩

/-- As long as the previous byte was not 0x0C, the sentinel test fires
exactly one byte after the first adjacent pair of 0x0C bytes. -/
theorem brkIdx_eq_firstPairIdx (bs : List Nat) :
    ∀ last, last ≠ 12 → brkIdx bs last = (firstPairIdx bs).map (· + 1) := by
  induction bs with
  | nil => intro last _; rfl
  | cons b tl ih =>
    intro last hlast
    have hnot : ¬(b = 12 ∧ last = 12) := fun hh => hlast hh.2
    rw [brkIdx, if_neg hnot]
    cases tl with
    | nil => simp [brkIdx, firstPairIdx]
    | cons c tl2 =>
      by_cases hb : b = 12
      · by_cases hc : c = 12
        · subst hb; subst hc
          simp [brkIdx, firstPairIdx]
        · have h1 : brkIdx (c :: tl2) b = (brkIdx tl2 c).map (· + 1) := by
            rw [brkIdx, if_neg (fun hh => hc hh.1)]
          have h2 : brkIdx (c :: tl2) 0 = (brkIdx tl2 c).map (· + 1) := by
            rw [brkIdx, if_neg (fun hh => hc hh.1)]
          have h3 := ih 0 (by decide)
          rw [h1, ← h2, h3, firstPairIdx, if_neg (fun hh => hc hh.2)]
      · rw [ih b hb, firstPairIdx, if_neg (fun hh => hb hh.1)]

/-- The position computed by `firstPairIdx` is an adjacent pair of 0x0C
bytes, and it is the first such position. -/
theorem firstPairIdx_spec (bs : List Nat) :
    ∀ j, firstPairIdx bs = some j →
      (bs.get? j = some 12 ∧ bs.get? (j + 1) = some 12) ∧
        ∀ i, i < j → ¬(bs.get? i = some 12 ∧ bs.get? (i + 1) = some 12) := by
  induction bs with
  | nil => intro j h; simp [firstPairIdx] at h
  | cons b tl ih =>
    intro j h
    cases tl with
    | nil => simp [firstPairIdx] at h
    | cons c tl2 =>
      rw [firstPairIdx] at h
      by_cases hbc : b = 12 ∧ c = 12
      · rw [if_pos hbc] at h
        obtain rfl : (0 : Nat) = j := by simpa using h
        refine ⟨⟨by simp [hbc.1], by simp [hbc.2]⟩, ?_⟩
        intro i hi
        omega
      · rw [if_neg hbc] at h
        obtain ⟨j', hj', rfl⟩ :
            ∃ j', firstPairIdx (c :: tl2) = some j' ∧ j = j' + 1 := by
          cases hfp : firstPairIdx (c :: tl2) with
          | none => rw [hfp] at h; simp at h
          | some j0 => rw [hfp] at h; simp at h; exact ⟨j0, rfl, h.symm⟩
        obtain ⟨⟨hp1, hp2⟩, hmin⟩ := ih j' hj'
        refine ⟨⟨by simpa using hp1, by simpa using hp2⟩, ?_⟩
        intro i hi hpair
        cases i with
        | zero =>
          have hb0 : b = 12 := by simpa using hpair.1
          have hc0 : c = 12 := by simpa using hpair.2
          exact hbc ⟨hb0, hc0⟩
        | succ i' =>
          have hlt : i' < j' := by omega
          exact hmin i' hlt ⟨by simpa using hpair.1, by simpa using hpair.2⟩

/-- Claim C2: whenever the header scan of `open` terminates by sentinel
detection (returns successfully), it stops exactly at the first position of
the input at which two consecutive bytes both equal 0x0C, independent of
line boundaries: the unread rest of the stream is exactly everything after
that pair.  (On inputs whose earlier lines raise a parse error the
function aborts with that error instead; the sentinel bytes are never part
of a processed line since a processed line ends at a newline.) -/
theorem C2_sentinel_precedence (bs : List Nat) (st0 st1 : ScanState)
    (rest : List Nat) (h : headerScan bs 0 [] st0 = .ok (st1, rest)) :
    ∃ j, (bs.get? j = some 12 ∧ bs.get? (j + 1) = some 12) ∧
      (∀ i, i < j → ¬(bs.get? i = some 12 ∧ bs.get? (i + 1) = some 12)) ∧
      rest = bs.drop (j + 2) := by
  obtain ⟨k, hk, hrest⟩ := headerScan_ok_brk bs 0 [] st0 st1 rest h
  rw [brkIdx_eq_firstPairIdx bs 0 (by decide)] at hk
  obtain ⟨j, hj, hkj⟩ : ∃ j, firstPairIdx bs = some j ∧ k = j + 1 := by
    cases hfp : firstPairIdx bs with
    | none => rw [hfp] at hk; simp at hk
    | some j0 => rw [hfp] at hk; simp at hk; exact ⟨j0, rfl, hk.symm⟩
  obtain ⟨⟨h1, h2⟩, hmin⟩ := firstPairIdx_spec bs j hj
  subst hkj
  exact ⟨j, ⟨h1, h2⟩, hmin, hrest⟩

/-- Witness for claim C2 at the synthetic input of the spec: the header
`ndim=1\n` followed by `dim1=12` followed immediately (no newline) by
0x0C 0x0C.  The scan succeeds with an empty rest, so the theorem applies:
the scan stopped exactly at the sentinel pair. -/
theorem C2_sentinel_precedence_witness :
    ∃ j, ((ndimKey ++ [61, 49, 10] ++ dimKey 1 ++ [61, 49, 50] ++ [12, 12]).get? j
            = some 12 ∧
          (ndimKey ++ [61, 49, 10] ++ dimKey 1 ++ [61, 49, 50] ++ [12, 12]).get? (j + 1)
            = some 12) ∧
      (∀ i, i < j →
        ¬((ndimKey ++ [61, 49, 10] ++ dimKey 1 ++ [61, 49, 50] ++ [12, 12]).get? i
            = some 12 ∧
          (ndimKey ++ [61, 49, 10] ++ dimKey 1 ++ [61, 49, 50] ++ [12, 12]).get? (i + 1)
            = some 12)) ∧
      ([] : List Nat) =
        (ndimKey ++ [61, 49, 10] ++ dimKey 1 ++ [61, 49, 50] ++ [12, 12]).drop (j + 2) :=
  C2_sentinel_precedence _ initState ⟨some 1, [none], none, none, none⟩ []
    (by decide)



/-! ### Outcome classification of line processing (claim C10) -/

/-- Outcomes available to header-line processing: success, a panic, or one
of the three value errors — in particular neither an I/O nor a
malformed-header error, and no divergence. -/
def valueErrOnly {α : Type} (r : ROut α) : Prop :=
  (∃ a, r = .ok a) ∨ r = .panic ∨ r = .err .parse ∨ r = .err .dataType ∨
    r = .err .fieldType

/-- Outcomes of a header scan that never sees the sentinel: divergence at
end-of-input, a panic, or one of the three value errors — never success,
never an I/O or malformed-header error. -/
def stuckOut {α : Type} (r : ROut α) : Prop :=
  r = .diverge ∨ r = .panic ∨ r = .err .parse ∨ r = .err .dataType ∨
    r = .err .fieldType

/-- `DataType::from_str` either succeeds or reports the unrecognized
encoding error. -/
theorem dataTypeFromStrShape (v : List Nat) :
    (∃ dt, DataType.from_str v = .ok dt) ∨
      DataType.from_str v = .error .dataType := by
  unfold DataType.from_str
  split_ifs <;> first | exact .inl ⟨_, rfl⟩ | exact .inr rfl

/-- `FieldType::from_str` either succeeds or reports the unrecognized
field error. -/
theorem fieldTypeFromStrShape (v : List Nat) :
    (∃ ft, FieldType.from_str v = .ok ft) ∨
      FieldType.from_str v = .error .fieldType := by
  unfold FieldType.from_str
  split_ifs <;> first | exact .inl ⟨_, rfl⟩ | exact .inr rfl

/-- Outcomes of the `ndim` arm. -/
theorem setNdim_shape (st : ScanState) (toks : List (List Nat)) :
    valueErrOnly (setNdim st toks) := by
  unfold setNdim valueErrOnly
  split
  · exact .inr (.inl rfl)
  · split
    · exact .inr (.inr (.inl rfl))
    · exact .inl ⟨_, rfl⟩

/-- Outcomes of a `dimN` arm. -/
theorem setDim_shape (st : ScanState) (toks : List (List Nat)) (idx : Nat) :
    valueErrOnly (setDim st toks idx) := by
  unfold setDim valueErrOnly
  split
  · exact .inr (.inl rfl)
  · split
    · exact .inr (.inr (.inl rfl))
    · split
      · exact .inl ⟨_, rfl⟩
      · exact .inr (.inl rfl)

/-- Outcomes of the `data` arm. -/
theorem setData_shape (st : ScanState) (toks : List (List Nat)) :
    valueErrOnly (setData st toks) := by
  unfold setData valueErrOnly
  split
  · exact .inr (.inl rfl)
  · rename_i v hv
    split
    · rename_i e he
      rcases dataTypeFromStrShape v with ⟨dt, hd⟩ | hd
      · rw [hd] at he; cases he
      · rw [hd] at he
        obtain rfl : RError.dataType = e := by cases he; rfl
        exact .inr (.inr (.inr (.inl rfl)))
    · exact .inl ⟨_, rfl⟩

/-- Outcomes of the `field` arm. -/
theorem setField_shape (st : ScanState) (toks : List (List Nat)) :
    valueErrOnly (setField st toks) := by
  unfold setField valueErrOnly
  split
  · exact .inr (.inl rfl)
  · rename_i v hv
    split
    · rename_i e he
      rcases fieldTypeFromStrShape v with ⟨ft, hf⟩ | hf
      · rw [hf] at he; cases he
      · rw [hf] at he
        obtain rfl : RError.fieldType = e := by cases he; rfl
        exact .inr (.inr (.inr (.inr rfl)))
    · exact .inl ⟨_, rfl⟩

/-- Outcomes of the `variable 1 file` arm. -/
theorem setExternal_shape (st : ScanState) (toks : List (List Nat)) :
    valueErrOnly (setExternal st toks) := by
  unfold setExternal valueErrOnly
  split
  · exact .inr (.inl rfl)
  · exact .inl ⟨_, rfl⟩

set_option maxHeartbeats 3200000 in
/-- Processing one header line either succeeds, panics, or returns one of
the three value errors; it never returns an I/O or malformed-header error
and never diverges. -/
theorem processLine_shape (line : List Nat) (st : ScanState) :
    valueErrOnly (processLine line st) := by
  unfold processLine
  split_ifs
  · exact setNdim_shape st (tokensOf line)
  · exact setDim_shape st (tokensOf line) 0
  · exact setDim_shape st (tokensOf line) 1
  · exact setDim_shape st (tokensOf line) 2
  · exact setDim_shape st (tokensOf line) 3
  · exact setDim_shape st (tokensOf line) 4
  · exact setDim_shape st (tokensOf line) 5
  · exact setDim_shape st (tokensOf line) 6
  · exact setData_shape st (tokensOf line)
  · exact setField_shape st (tokensOf line)
  · exact setExternal_shape st (tokensOf line)
  · exact .inl ⟨st, rfl⟩

/-- On input with no adjacent 0x0C pair ahead, the header loop never
terminates by sentinel detection: it diverges at end-of-input (reading
0x00 forever), panics, or returns one of the three line-value errors. -/
theorem headerScan_no_brk (bs : List Nat) :
    ∀ last line st, brkIdx bs last = none →
      stuckOut (headerScan bs last line st) := by
  induction bs with
  | nil => intro last line st _; exact .inl rfl
  | cons b tl ih =>
    intro last line st h
    rw [brkIdx] at h
    by_cases hb : b = 12 ∧ last = 12
    · rw [if_pos hb] at h; simp at h
    · rw [if_neg hb] at h
      have htl : brkIdx tl b = none := by
        cases hfp : brkIdx tl b with
        | none => rfl
        | some k => rw [hfp] at h; simp at h
      simp only [headerScan]
      rw [if_neg hb]
      by_cases hnl : b = 10
      · rw [if_pos hnl]
        rcases processLine_shape (line ++ [b]) st with ⟨st2, hp⟩ | hp | hp | hp | hp
        · rw [hp]; exact ih b [] st2 htl
        · rw [hp]; exact .inr (.inl rfl)
        · rw [hp]; exact .inr (.inr (.inl rfl))
        · rw [hp]; exact .inr (.inr (.inr (.inl rfl)))
        · rw [hp]; exact .inr (.inr (.inr (.inr rfl)))
      · rw [if_neg hnl]; exact ih b (line ++ [b]) st htl

/-- Claim C10 (amended): for every input stream that reaches end-of-input
before two consecutive 0x0C bytes have occurred, `open` never exits its
header loop normally: the zero-byte reads at end-of-stream leave a 0x00
input byte, so the scan diverges — unless a complete header line first
raises a value-parse, encoding, or field error (terminating `open` with
that error) or panics.  In no case does `open` succeed or return an I/O or
malformed-header error. -/
theorem C10_no_sentinel_no_exit (fs : List Nat → Option (List Nat))
    (bs : List Nat) (h : firstPairIdx bs = none) :
    AVSFile.openBytes fs bs = .diverge ∨
      AVSFile.openBytes fs bs = .panic ∨
      AVSFile.openBytes fs bs = .err .parse ∨
      AVSFile.openBytes fs bs = .err .dataType ∨
      AVSFile.openBytes fs bs = .err .fieldType := by
  have hbrk : brkIdx bs 0 = none := by
    rw [brkIdx_eq_firstPairIdx bs 0 (by decide), h]; rfl
  unfold AVSFile.openBytes
  rcases headerScan_no_brk bs 0 [] initState hbrk with h1 | h1 | h1 | h1 | h1 <;>
    rw [h1]
  · exact .inl rfl
  · exact .inr (.inl rfl)
  · exact .inr (.inr (.inl rfl))
  · exact .inr (.inr (.inr (.inl rfl)))
  · exact .inr (.inr (.inr (.inr rfl)))

/-- Witness for the amended claim C10: the truncated header `ndim=2\n`
(no sentinel anywhere) satisfies the hypothesis; on this input `open` in
fact diverges. -/
theorem C10_no_sentinel_no_exit_witness :
    AVSFile.openBytes (fun _ => none) (ndimKey ++ [61, 50, 10]) = .diverge ∨
      AVSFile.openBytes (fun _ => none) (ndimKey ++ [61, 50, 10]) = .panic ∨
      AVSFile.openBytes (fun _ => none) (ndimKey ++ [61, 50, 10]) = .err .parse ∨
      AVSFile.openBytes (fun _ => none) (ndimKey ++ [61, 50, 10])
        = .err .dataType ∨
      AVSFile.openBytes (fun _ => none) (ndimKey ++ [61, 50, 10])
        = .err .fieldType :=
  C10_no_sentinel_no_exit (fun _ => none) (ndimKey ++ [61, 50, 10]) (by decide)

/-! ### Forward-compatibility tolerance (claim C4) -/

set_option maxHeartbeats 1600000 in
/-- Claim C4 (amended): every header line whose first token — the trimmed
text before the first `=` (the whole trimmed line when there is no `=`) —
is not one of the recognized keys is silently ignored: no error, state
unchanged.  (The extension of the original claim to a line without `=` whose
trimmed text equals a recognized key such as `data` or `ndim` is false:
such a line makes the parser panic on the out-of-bounds `tokens[1]`; see
the counterexample.) -/
theorem C4_unrecognized_ignored (line : List Nat) (st : ScanState)
    (h : (tokensOf line).headD [] ∉ recognizedKeys) :
    processLine line st = .ok st := by
  simp only [recognizedKeys, List.mem_cons, List.not_mem_nil, or_false,
    not_or] at h
  obtain ⟨h1, h2, h3, h4, h5, h6, h7, h8, h9, h10, h11⟩ := h
  unfold processLine
  rw [if_neg h1, if_neg h2, if_neg h3, if_neg h4, if_neg h5, if_neg h6,
    if_neg h7, if_neg h8, if_neg h9, if_neg h10, if_neg h11]

/-- Witness for claim C4 at the line `foo\n`, whose key is unrecognized:
processing leaves the initial state unchanged with no error. -/
theorem C4_unrecognized_ignored_witness :
    processLine [102, 111, 111, 10] initState = .ok initState :=
  C4_unrecognized_ignored [102, 111, 111, 10] initState (by decide)

/-! ### Dimension line with a missing slot (claim C5) -/

/-- The `dimN` arm panics when the token parses but the extent slot index
is beyond the current `sizes` vector. -/
theorem setDim_overflow (st : ScanState) (toks : List (List Nat)) (idx : Nat)
    (v : List Nat) (n : Nat) (hv : toks.get? 1 = some v)
    (hp : parseUsize v = some n) (hs : st.sizes.length ≤ idx) :
    setDim st toks idx = .panic := by
  simp only [setDim, hv, hp]
  rw [if_neg (by omega)]

set_option maxHeartbeats 1600000 in
/-- Claim C5 (amended): a `dim1` … `dim7` line whose value parses as an
unsigned integer, processed while the targeted extent slot does not exist
(in particular before any `ndim` line, when the slot vector is empty),
makes `open` panic on the out-of-bounds `sizes[idx]` assignment — it does
not return an error to the caller. -/
theorem C5_dim_slot_missing_panics (line : List Nat) (st : ScanState)
    (i : Nat) (v : List Nat) (n : Nat)
    (hk : dimKeyIdx ((tokensOf line).headD []) = some i)
    (hv : (tokensOf line).get? 1 = some v)
    (hp : parseUsize v = some n)
    (hs : st.sizes.length ≤ i) :
    processLine line st = .panic := by
  unfold dimKeyIdx at hk
  unfold processLine
  split_ifs at hk with k1 k2 k3 k4 k5 k6 k7
  · obtain rfl : (0 : Nat) = i := by simpa using hk
    rw [k1, if_neg (by decide), if_pos rfl]
    exact setDim_overflow st (tokensOf line) 0 v n hv hp hs
  · obtain rfl : (1 : Nat) = i := by simpa using hk
    rw [k2, if_neg (by decide), if_neg (by decide), if_pos rfl]
    exact setDim_overflow st (tokensOf line) 1 v n hv hp hs
  · obtain rfl : (2 : Nat) = i := by simpa using hk
    rw [k3, if_neg (by decide), if_neg (by decide), if_neg (by decide),
      if_pos rfl]
    exact setDim_overflow st (tokensOf line) 2 v n hv hp hs
  · obtain rfl : (3 : Nat) = i := by simpa using hk
    rw [k4, if_neg (by decide), if_neg (by decide), if_neg (by decide),
      if_neg (by decide), if_pos rfl]
    exact setDim_overflow st (tokensOf line) 3 v n hv hp hs
  · obtain rfl : (4 : Nat) = i := by simpa using hk
    rw [k5, if_neg (by decide), if_neg (by decide), if_neg (by decide),
      if_neg (by decide), if_neg (by decide), if_pos rfl]
    exact setDim_overflow st (tokensOf line) 4 v n hv hp hs
  · obtain rfl : (5 : Nat) = i := by simpa using hk
    rw [k6, if_neg (by decide), if_neg (by decide), if_neg (by decide),
      if_neg (by decide), if_neg (by decide), if_neg (by decide), if_pos rfl]
    exact setDim_overflow st (tokensOf line) 5 v n hv hp hs
  · obtain rfl : (6 : Nat) = i := by simpa using hk
    rw [k7, if_neg (by decide), if_neg (by decide), if_neg (by decide),
      if_neg (by decide), if_neg (by decide), if_neg (by decide),
      if_neg (by decide), if_pos rfl]
    exact setDim_overflow st (tokensOf line) 6 v n hv hp hs

/-- Witness for claim C5 at the line `dim1=5` with the empty initial
state: processing panics. -/
theorem C5_dim_slot_missing_panics_witness :
    processLine (dimKey 1 ++ [61, 53, 10]) initState = .panic :=
  C5_dim_slot_missing_panics (dimKey 1 ++ [61, 53, 10]) initState 0 [53] 5
    (by decide) (by decide) (by decide) (by decide)

/-! ### Tokenization at every equals sign (claim C6) -/

/-- Splitting at `=` always yields at least one segment. -/
theorem splitOnEq_ne_nil (l : List Nat) : splitOnEq l ≠ [] := by
  cases l with
  | nil => simp [splitOnEq]
  | cons b rest =>
    rw [splitOnEq]
    split_ifs
    · simp
    · cases h : splitOnEq rest <;> simp

/-- Splitting a list whose first `=` sits right after the `=`-free prefix
`a` yields `a` as the first segment, followed by the segments of the
remainder. -/
theorem splitOnEq_append (a b : List Nat) (h : (61 : Nat) ∉ a) :
    splitOnEq (a ++ 61 :: b) = a :: splitOnEq b := by
  induction a with
  | nil => simp [splitOnEq]
  | cons x a' ih =>
    have hx : x ≠ 61 := fun hh => h (by simp [hh])
    have h' : (61 : Nat) ∉ a' := fun hh => h (List.mem_cons_of_mem _ hh)
    rw [List.cons_append, splitOnEq, if_neg hx, ih h']

/-- A segment with no `=` at all is returned whole as the only segment. -/
theorem splitOnEq_no_eq (l : List Nat) (h : (61 : Nat) ∉ l) :
    splitOnEq l = [l] := by
  induction l with
  | nil => rfl
  | cons x l' ih =>
    have hx : x ≠ 61 := fun hh => h (by simp [hh])
    have h' : (61 : Nat) ∉ l' := fun hh => h (List.mem_cons_of_mem _ hh)
    rw [splitOnEq, if_neg hx, ih h']

/-- Trimming absorbs the trailing newline a processed line always carries
(the newline is whitespace). -/
theorem trimBytes_append_nl (v : List Nat) :
    trimBytes (v ++ [10]) = trimBytes v := by
  unfold trimBytes
  rw [List.dropWhile_append]
  cases hd : v.dropWhile isRustWs with
  | nil => rfl
  | cons y t =>
    simp [List.reverse_append, List.dropWhile_cons, isRustWs]

set_option maxHeartbeats 1600000 in
/-- Claim C6 (amended): the parser splits a header line at EVERY `=`, not
only the first, and trims each segment.  For every key part `k` and value
part `v` free of `=`: the key compared against the recognized names is the
trimmed text before the first `=`, and segment 1 — the value that every
recognized arm reads as `tokens[1]` — is the trimmed text strictly BETWEEN
the first and the second `=` when a second `=` exists, and the trimmed
remainder of the line (trailing newline removed by trimming) when it does
not; text after a second `=` never reaches any arm.  In particular a
`variable 1 file` line with a second `=` stores only the between-equals
segment as the external path. -/
theorem C6_value_between_equals (k v w : List Nat) (st : ScanState)
    (hk : (61 : Nat) ∉ k) (hv : (61 : Nat) ∉ v) :
    tokensOf (k ++ [61] ++ v ++ [61] ++ w ++ [10]) =
      trimBytes k :: trimBytes v :: (splitOnEq (w ++ [10])).map trimBytes ∧
    tokensOf (k ++ [61] ++ v ++ [10]) = [trimBytes k, trimBytes v] ∧
    processLine (variableFileKey ++ [61] ++ v ++ [61] ++ w ++ [10]) st =
      .ok { st with external := some (trimBytes v) } := by
  have e1 : k ++ [61] ++ v ++ [61] ++ w ++ [10] =
      k ++ 61 :: (v ++ 61 :: (w ++ [10])) := by simp
  have h1 : tokensOf (k ++ [61] ++ v ++ [61] ++ w ++ [10]) =
      trimBytes k :: trimBytes v :: (splitOnEq (w ++ [10])).map trimBytes := by
    rw [tokensOf, e1, splitOnEq_append _ _ hk, splitOnEq_append _ _ hv,
      List.map_cons, List.map_cons]
  have e2 : k ++ [61] ++ v ++ [10] = k ++ 61 :: (v ++ [10]) := by simp
  have hv10 : (61 : Nat) ∉ v ++ [10] := by
    intro hmem
    rcases List.mem_append.mp hmem with hmem | hmem
    · exact hv hmem
    · simp at hmem
  have h2 : tokensOf (k ++ [61] ++ v ++ [10]) =
      [trimBytes k, trimBytes v] := by
    rw [tokensOf, e2, splitOnEq_append _ _ hk, splitOnEq_no_eq _ hv10,
      List.map_cons, List.map_cons, List.map_nil, trimBytes_append_nl]
  refine ⟨h1, h2, ?_⟩
  have hkey : (61 : Nat) ∉ variableFileKey := by decide
  have e3 : variableFileKey ++ [61] ++ v ++ [61] ++ w ++ [10] =
      variableFileKey ++ 61 :: (v ++ 61 :: (w ++ [10])) := by simp
  have htoks : tokensOf (variableFileKey ++ [61] ++ v ++ [61] ++ w ++ [10]) =
      variableFileKey :: trimBytes v ::
        (splitOnEq (w ++ [10])).map trimBytes := by
    rw [tokensOf, e3, splitOnEq_append _ _ hkey, splitOnEq_append _ _ hv]
    simp only [List.map_cons]
    rfl
  unfold processLine
  rw [htoks]
  simp only [List.headD_cons]
  rw [if_neg (by decide), if_neg (by decide), if_neg (by decide),
    if_neg (by decide), if_neg (by decide), if_neg (by decide),
    if_neg (by decide), if_neg (by decide), if_neg (by decide),
    if_neg (by decide), if_pos trivial]
  rfl

/-- Witness for claim C6: with key part `data`, value part ` a` and a
second `=` before `b`, the tokenization and (for a `variable 1 file` line)
the stored external path are the between-equals segment. -/
theorem C6_value_between_equals_witness :
    tokensOf (dataKey ++ [61] ++ [32, 97] ++ [61] ++ [98] ++ [10]) =
      trimBytes dataKey :: trimBytes [32, 97] ::
        (splitOnEq ([98] ++ [10])).map trimBytes ∧
    tokensOf (dataKey ++ [61] ++ [32, 97] ++ [10]) =
      [trimBytes dataKey, trimBytes [32, 97]] ∧
    processLine (variableFileKey ++ [61] ++ [32, 97] ++ [61] ++ [98] ++ [10])
        initState =
      .ok { initState with external := some (trimBytes [32, 97]) } :=
  C6_value_between_equals dataKey [32, 97] [98] initState (by decide)
    (by decide)

/-! ### Finalization completeness (claim C7) -/

/-- The `ndim` arm preserves the slot invariant: setting `ndim := nd` also
appends `nd` fresh slots. -/
theorem setNdim_inv (st : ScanState) (toks : List (List Nat))
    (st' : ScanState) (_h : scanInv st) (he : setNdim st toks = .ok st') :
    scanInv st' := by
  unfold setNdim at he
  split at he
  · cases he
  · split at he
    · cases he
    · cases he
      intro m hm
      simp at hm ⊢
      omega

/-- A `dimN` arm preserves the slot invariant (`List.set` keeps the
length). -/
theorem setDim_inv (st : ScanState) (toks : List (List Nat)) (idx : Nat)
    (st' : ScanState) (h : scanInv st) (he : setDim st toks idx = .ok st') :
    scanInv st' := by
  unfold setDim at he
  split at he
  · cases he
  · split at he
    · cases he
    · split at he
      · cases he
        intro m hm
        simp at hm ⊢
        exact h m hm
      · cases he

/-- The `data` arm preserves the slot invariant. -/
theorem setData_inv (st : ScanState) (toks : List (List Nat))
    (st' : ScanState) (h : scanInv st) (he : setData st toks = .ok st') :
    scanInv st' := by
  unfold setData at he
  split at he
  · cases he
  · split at he
    · cases he
    · cases he
      intro m hm
      simp at hm ⊢
      exact h m hm

/-- The `field` arm preserves the slot invariant. -/
theorem setField_inv (st : ScanState) (toks : List (List Nat))
    (st' : ScanState) (h : scanInv st) (he : setField st toks = .ok st') :
    scanInv st' := by
  unfold setField at he
  split at he
  · cases he
  · split at he
    · cases he
    · cases he
      intro m hm
      simp at hm ⊢
      exact h m hm

/-- The `variable 1 file` arm preserves the slot invariant. -/
theorem setExternal_inv (st : ScanState) (toks : List (List Nat))
    (st' : ScanState) (h : scanInv st) (he : setExternal st toks = .ok st') :
    scanInv st' := by
  unfold setExternal at he
  split at he
  · cases he
  · cases he
    intro m hm
    simp at hm ⊢
    exact h m hm

set_option maxHeartbeats 3200000 in
/-- Successful processing of any header line preserves the slot
invariant. -/
theorem processLine_inv (line : List Nat) (st st' : ScanState)
    (h : scanInv st) (he : processLine line st = .ok st') : scanInv st' := by
  unfold processLine at he
  split_ifs at he
  · exact setNdim_inv st (tokensOf line) st' h he
  · exact setDim_inv st (tokensOf line) 0 st' h he
  · exact setDim_inv st (tokensOf line) 1 st' h he
  · exact setDim_inv st (tokensOf line) 2 st' h he
  · exact setDim_inv st (tokensOf line) 3 st' h he
  · exact setDim_inv st (tokensOf line) 4 st' h he
  · exact setDim_inv st (tokensOf line) 5 st' h he
  · exact setDim_inv st (tokensOf line) 6 st' h he
  · exact setData_inv st (tokensOf line) st' h he
  · exact setField_inv st (tokensOf line) st' h he
  · exact setExternal_inv st (tokensOf line) st' h he
  · cases he; exact h

/-- The header scan preserves the slot invariant. -/
theorem headerScan_inv (bs : List Nat) :
    ∀ last line st st' rest, scanInv st →
      headerScan bs last line st = .ok (st', rest) → scanInv st' := by
  induction bs with
  | nil => intro last line st st' rest _ h; simp [headerScan] at h
  | cons b tl ih =>
    intro last line st st' rest hinv h
    simp only [headerScan] at h
    split_ifs at h with hb hnl
    · obtain ⟨h1, h2⟩ : st = st' ∧ tl = rest := by simpa using h
      subst h1
      exact hinv
    · cases hp : processLine (line ++ [b]) st with
      | ok st2 =>
        rw [hp] at h
        exact ih b [] st2 st' rest (processLine_inv _ _ _ hinv hp) h
      | err e => rw [hp] at h; simp at h
      | panic => rw [hp] at h; simp at h
      | diverge => rw [hp] at h; simp at h
    · exact ih b (line ++ [b]) st st' rest hinv h

/-- When every index of the finalization loop is in bounds and some slot in
range is unset, the loop stops with a `Malformed` error (at the first unset
slot). -/
theorem collectFrom_missing (sizes : List (Option Nat)) :
    ∀ r idx, (∀ j, j < r → idx + j < sizes.length) →
      (∃ j, j < r ∧ sizes.get? (idx + j) = some none) →
      collectFrom sizes idx r = .err .malformed := by
  intro r
  induction r with
  | zero => intro idx _ hm; obtain ⟨j, hj, _⟩ := hm; omega
  | succ r ih =>
    intro idx hb hm
    have h0 : idx < sizes.length := by have := hb 0 (by omega); omega
    simp only [collectFrom]
    cases hg : sizes.get? idx with
    | none =>
      have := List.get?_eq_none.mp hg
      omega
    | some o =>
      cases o with
      | none => rfl
      | some v =>
        obtain ⟨j, hj, hjv⟩ := hm
        have hj0 : j ≠ 0 := by
          intro h00
          subst h00
          have : sizes.get? idx = some none := by simpa using hjv
          rw [hg] at this
          simp at this
        obtain ⟨j', rfl⟩ : ∃ j', j = j' + 1 := ⟨j - 1, by omega⟩
        have ihr : collectFrom sizes (idx + 1) r = .err .malformed := by
          apply ih
          · intro j2 hj2
            have := hb (j2 + 1) (by omega)
            omega
          · refine ⟨j', by omega, ?_⟩
            have e : idx + 1 + j' = idx + (j' + 1) := by omega
            rw [e]
            exact hjv
        rw [ihr]

/-- When the slot invariant of the scan holds and a required field is missing,
the common finalization yields the `Malformed` error. -/
theorem mkFile_missing (st : ScanState) (hinv : scanInv st)
    (hm : missingField st) : mkFile st = .err .malformed := by
  unfold mkFile
  cases hnd : st.ndim with
  | none => rfl
  | some nd =>
    cases hdt : st.data_type with
    | none => rfl
    | some dt =>
      cases hft : st.field_type with
      | none => rfl
      | some ft =>
        have hslot : ∃ i, i < nd ∧ st.sizes.get? i = some none := by
          rcases hm with h | h | h | ⟨nd', hnd', i, hi, hgi⟩
          · rw [hnd] at h; cases h
          · rw [hdt] at h; cases h
          · rw [hft] at h; cases h
          · rw [hnd] at hnd'
            obtain rfl : nd' = nd := by cases hnd'; rfl
            exact ⟨i, hi, hgi⟩
        obtain ⟨i, hi, hgi⟩ := hslot
        have hcf : collectFrom st.sizes 0 nd = .err .malformed := by
          apply collectFrom_missing
          · intro j hj
            have := hinv nd hnd
            omega
          · exact ⟨i, hi, by simpa using hgi⟩
        simp only [hcf]

/-- `open` after a successful header scan, written as a function of the
scan result (unfolding of `AVSFile.openBytes`). -/
theorem openBytes_scan_ok (fs : List Nat → Option (List Nat))
    (input rest : List Nat) (st : ScanState)
    (h : headerScan input 0 [] initState = .ok (st, rest)) :
    AVSFile.openBytes fs input =
      match st.external with
      | none =>
        match mkFile st with
        | .ok f => .ok (f, .inlineRest rest)
        | .err e => .err e
        | .panic => .panic
        | .diverge => .diverge
      | some path =>
        match fs path with
        | none => .err .ioErr
        | some _ =>
          match mkFile st with
          | .ok f => .ok (f, .externalFile path)
          | .err e => .err e
          | .panic => .panic
          | .diverge => .diverge := by
  unfold AVSFile.openBytes
  rw [h]

/-- `open` after a successful header scan that recorded an external
payload path: the external file is opened (a possible I/O error) before
the completeness checks run. -/
theorem openBytes_scan_ok_external (fs : List Nat → Option (List Nat))
    (input rest p : List Nat) (st : ScanState)
    (h : headerScan input 0 [] initState = .ok (st, rest))
    (hp : st.external = some p) :
    AVSFile.openBytes fs input =
      match fs p with
      | none => .err .ioErr
      | some _ =>
        match mkFile st with
        | .ok f => .ok (f, .externalFile p)
        | .err e => .err e
        | .panic => .panic
        | .diverge => .diverge := by
  rw [openBytes_scan_ok fs input rest st h, hp]

/-- Claim C7 (amended): for every input whose header scan reaches the
sentinel — either without declaring an external payload path, or having
declared one whose file opens successfully — if the dimension count, the
encoding, the field kind, or one of the declared extent slots was never
populated, then `open` returns the malformed-header error (and no payload
is touched).  (When a declared external path fails to open, the code opens
that file before the completeness checks, so an I/O error is returned
instead; see the counterexample.) -/
theorem C7_missing_field_malformed (fs : List Nat → Option (List Nat))
    (input rest : List Nat) (st : ScanState)
    (h1 : headerScan input 0 [] initState = .ok (st, rest))
    (h2 : st.external = none ∨
      ∃ p, st.external = some p ∧ ∃ c, fs p = some c)
    (h3 : missingField st) :
    AVSFile.openBytes fs input = .err .malformed := by
  have hinv : scanInv st :=
    headerScan_inv input 0 [] initState st rest (fun nd h => by cases h) h1
  rcases h2 with h2 | ⟨p, hp, c, hc⟩
  · rw [openBytes_scan_ok fs input rest st h1, h2,
      mkFile_missing st hinv h3]
  · rw [openBytes_scan_ok_external fs input rest p st h1 hp]
    simp only [hc, mkFile_missing st hinv h3]

/-- Witness for claim C7, both branches: the example of the spec (a
sentinel-terminated header declaring `ndim=2` and `dim1=5` but no `dim2`,
`data` or `field`, no external path), and a header declaring only an
external payload path whose file opens successfully while `ndim` is
missing — each fails with the malformed-header error. -/
theorem C7_missing_field_malformed_witness :
    AVSFile.openBytes (fun _ => none)
        (ndimKey ++ [61, 50, 10] ++ dimKey 1 ++ [61, 53, 10] ++ [12, 12]) =
      .err .malformed ∧
    AVSFile.openBytes (fun _ => some [])
        (variableFileKey ++ [61, 120, 10] ++ [12, 12]) = .err .malformed :=
  ⟨C7_missing_field_malformed (fun _ => none)
      (ndimKey ++ [61, 50, 10] ++ dimKey 1 ++ [61, 53, 10] ++ [12, 12]) []
      ⟨some 2, [some 5, none], none, none, none⟩
      (by decide) (.inl rfl) (.inr (.inl rfl)),
    C7_missing_field_malformed (fun _ => some [])
      (variableFileKey ++ [61, 120, 10] ++ [12, 12]) []
      ⟨none, [], none, none, some [120]⟩
      (by decide) (.inr ⟨[120], rfl, [], rfl⟩) (.inl rfl)⟩

/-! ### Normalizing decode semantics (claim C8) -/

/-- A list of length 4 is a four-element literal. -/
theorem list_len_four {α : Type} (l : List α) (h : l.length = 4) :
    ∃ a b c d, l = [a, b, c, d] := by
  cases l with
  | nil => simp at h
  | cons a l1 =>
    cases l1 with
    | nil => simp at h
    | cons b l2 =>
      cases l2 with
      | nil => simp at h
      | cons c l3 =>
        cases l3 with
        | nil => simp at h
        | cons d l4 =>
          cases l4 with
          | nil => exact ⟨a, b, c, d, rfl⟩
          | cons e l5 => simp only [List.length_cons] at h; omega

/-- A list of length 1 is a singleton. -/
theorem list_len_one {α : Type} (l : List α) (h : l.length = 1) :
    ∃ a, l = [a] := by
  cases l with
  | nil => simp at h
  | cons a l1 =>
    cases l1 with
    | nil => exact ⟨a, rfl⟩
    | cons b l2 => simp only [List.length_cons] at h; omega

/-- On a buffer of exactly the element width, the source conversion agrees
with the per-encoding rule of the specification (reverse-then-reinterpret for
`xdr_float`, direct reinterpretation for `float_le`, numeric widening for
`byte`). -/
theorem convert_eq_decodeElemSpec (dt : DataType) (bs : List Nat)
    (h : bs.length = dt.num_bytes) :
    dt.convert_to_f32 bs = decodeElemSpec dt bs := by
  cases dt with
  | XDRFloat =>
    obtain ⟨a, b, c, d, rfl⟩ := list_len_four bs h
    rfl
  | FloatLE =>
    obtain ⟨a, b, c, d, rfl⟩ := list_len_four bs h
    rfl
  | Byte =>
    obtain ⟨a, rfl⟩ := list_len_one bs h
    rfl

/-- The element loop, started at index `n` for `k` elements with enough
bytes available, succeeds and yields exactly the per-index conversions of
the width-sized slices. -/
theorem convPush_ok (dt : DataType) (buf : List Nat) :
    ∀ k n, (n + k) * dt.num_bytes ≤ buf.length →
      ∃ out, convPush dt buf n k = .ok out ∧ out.length = k ∧
        ∀ j, j < k → out.get? j =
          some (dt.convert_to_f32
            ((buf.drop ((n + j) * dt.num_bytes)).take dt.num_bytes)) := by
  intro k
  induction k with
  | zero => intro n _; exact ⟨[], rfl, rfl, by intro j hj; omega⟩
  | succ k ih =>
    intro n h
    have h1 : (n + 1 + k) * dt.num_bytes ≤ buf.length := by
      have e : n + 1 + k = n + (k + 1) := by omega
      rw [e]; exact h
    obtain ⟨out, ho, hl, hg⟩ := ih (n + 1) h1
    have hbound : (n + 1) * dt.num_bytes ≤ buf.length := by
      have hmul : (n + 1) * dt.num_bytes ≤ (n + (k + 1)) * dt.num_bytes :=
        Nat.mul_le_mul_right _ (by omega)
      omega
    refine ⟨dt.convert_to_f32
        ((buf.drop (n * dt.num_bytes)).take dt.num_bytes) :: out, ?_, ?_, ?_⟩
    · simp only [convPush]
      rw [if_pos hbound, ho]
    · simp [hl]
    · intro j hj
      cases j with
      | zero => simp
      | succ j' =>
        have hj' := hg j' (by omega)
        have e : n + 1 + j' = n + (j' + 1) := by omega
        rw [e] at hj'
        simpa using hj'

/-- Claim C8: for every opened file and payload supplying at least
`product(extents) * width` bytes, `read_to_f32` returns exactly
`product(extents)` float32 values, element `n` being obtained from the
bytes `[n*width, (n+1)*width)` by the per-encoding rule of
`decodeElemSpec`: byte reversal then IEEE-754 reinterpretation for
`xdr_float`, direct reinterpretation for `float_le`, numeric widening of
the single byte for `byte`. -/
theorem C8_decode_semantics (f : AVSFile) (payload : List Nat)
    (h : f.sizes.foldl (· * ·) 1 * f.data_type.num_bytes ≤ payload.length) :
    ∃ out, f.read_to_f32 payload = .ok out ∧
      out.length = f.sizes.foldl (· * ·) 1 ∧
      ∀ n, n < f.sizes.foldl (· * ·) 1 →
        out.get? n = some (decodeElemSpec f.data_type
          ((payload.drop (n * f.data_type.num_bytes)).take
            f.data_type.num_bytes)) := by
  obtain ⟨out, ho, hl, hg⟩ :=
    convPush_ok f.data_type payload (f.sizes.foldl (· * ·) 1) 0
      (by simpa using h)
  refine ⟨out, ho, hl, ?_⟩
  intro n hn
  have hthis := hg n hn
  simp only [Nat.zero_add] at hthis
  have hslice :
      ((payload.drop (n * f.data_type.num_bytes)).take
        f.data_type.num_bytes).length = f.data_type.num_bytes := by
    rw [List.length_take, List.length_drop]
    have hmul : (n + 1) * f.data_type.num_bytes ≤
        f.sizes.foldl (· * ·) 1 * f.data_type.num_bytes :=
      Nat.mul_le_mul_right _ (by omega)
    have hle : (n + 1) * f.data_type.num_bytes ≤ payload.length :=
      le_trans hmul h
    have hexp : (n + 1) * f.data_type.num_bytes =
        n * f.data_type.num_bytes + f.data_type.num_bytes := by ring
    omega
  rw [convert_eq_decodeElemSpec f.data_type _ hslice] at hthis
  exact hthis

/-- Witness for claim C8 at a single `byte`-encoded element: the payload
byte 200 decodes to the float32 of numeric value 200 (bit pattern
0x43480000, see `f32bitsOfNat_two_hundred`). -/
theorem C8_decode_semantics_witness :
    ∃ out, AVSFile.read_to_f32 ⟨1, [1], .Byte, .Uniform⟩ [200] = .ok out ∧
      out.length = ([1] : List Nat).foldl (· * ·) 1 ∧
      ∀ n, n < ([1] : List Nat).foldl (· * ·) 1 →
        out.get? n = some (decodeElemSpec .Byte
          ((([200] : List Nat).drop (n * 1)).take 1)) :=
  C8_decode_semantics ⟨1, [1], .Byte, .Uniform⟩ [200] (by decide)

/-! ### Short payload (claim C3) -/

/-- A loop of at least one element over a buffer shorter than the needed
byte count panics on the out-of-bounds slice. -/
theorem convPush_short (dt : DataType) (buf : List Nat) :
    ∀ k n, 0 < k → buf.length < (n + k) * dt.num_bytes →
      convPush dt buf n k = .panic := by
  intro k
  induction k with
  | zero => intro n h0 _; omega
  | succ k ih =>
    intro n _ h
    by_cases hb : (n + 1) * dt.num_bytes ≤ buf.length
    · have hk : 0 < k := by
        rcases Nat.eq_zero_or_pos k with hk0 | hk0
        · subst hk0
          have e0 : n + (0 + 1) = n + 1 := by omega
          rw [e0] at h
          omega
        · exact hk0
      have h2 : buf.length < (n + 1 + k) * dt.num_bytes := by
        have e : n + 1 + k = n + (k + 1) := by omega
        rw [e]; exact h
      simp only [convPush]
      rw [if_pos hb, ih (n + 1) hk h2]
    · simp only [convPush]
      rw [if_neg hb]

/-- Claim C3 (amended): when the payload stream supplies fewer than
`product(extents) * width` bytes, `read_to_f32` never silently returns a
truncated array — but instead of returning a malformed-payload error it
panics on the out-of-bounds slice `buf_u8[off0..off1]` of the first
element whose byte range exceeds the buffer.  (See the counterexample for
the claim as stated.) -/
theorem C3_short_payload_panics (f : AVSFile) (payload : List Nat)
    (h : payload.length <
      f.sizes.foldl (· * ·) 1 * f.data_type.num_bytes) :
    f.read_to_f32 payload = .panic := by
  have hpos : 0 < f.sizes.foldl (· * ·) 1 := by
    by_contra h0
    have hz : f.sizes.foldl (· * ·) 1 = 0 := by omega
    rw [hz] at h
    simp at h
  exact convPush_short f.data_type payload _ 0 hpos (by simpa using h)

/-- Witness for the amended claim C3 at the example of the spec: 10 declared
float32 elements (40 bytes) with a 36-byte payload panic. -/
theorem C3_short_payload_panics_witness :
    AVSFile.read_to_f32 ⟨1, [10], .FloatLE, .Uniform⟩ (List.replicate 36 0)
      = .panic :=
  C3_short_payload_panics ⟨1, [10], .FloatLE, .Uniform⟩ (List.replicate 36 0)
    (by decide)

/-! ### Writer output format (claim C9) -/

/-- Pointwise-equal functions give equal `flatMap`s. -/
theorem flatMapCongrOn {l : List Nat} {f g : Nat → List Nat}
    (h : ∀ x ∈ l, f x = g x) : l.flatMap f = l.flatMap g := by
  induction l with
  | nil => rfl
  | cons a l ih =>
    simp only [List.flatMap_cons]
    rw [h a (by simp), ih (fun x hx => h x (by simp [hx]))]

/-- Members of `range' s n` are at least `s`. -/
theorem mem_range'_lower : ∀ (n s k : Nat), k ∈ List.range' s n → s ≤ k := by
  intro n
  induction n with
  | zero => intro s k h; simp [List.range'] at h
  | succ n ih =>
    intro s k h
    have e : List.range' s (n + 1) = s :: List.range' (s + 1) n := rfl
    rw [e] at h
    rcases List.mem_cons.mp h with rfl | h2
    · omega
    · have := ih (s + 1) k h2; omega

/-- The enumeration loop of the writer produces exactly the specified
`dimk=dims[k-1]` lines for `k` from `i+1` to `i+n`. -/
theorem dimLines_spec (dims : List Nat) :
    ∀ i, dimLines i dims =
      (List.range' (i + 1) dims.length).flatMap
        (fun k => dimBytes ++ natDecBytes k ++ [61] ++
          natDecBytes (dims.getD (k - (i + 1)) 0) ++ [10]) := by
  induction dims with
  | nil => intro i; rfl
  | cons d rest ih =>
    intro i
    have hr : List.range' (i + 1) (rest.length + 1) =
        (i + 1) :: List.range' (i + 2) rest.length := rfl
    simp only [dimLines, List.length_cons, hr, List.flatMap_cons]
    have hhead : natDecBytes ((d :: rest).getD ((i + 1) - (i + 1)) 0) =
        natDecBytes d := by
      simp
    rw [hhead]
    have htail : dimLines (i + 1) rest =
        (List.range' (i + 2) rest.length).flatMap
          (fun k => dimBytes ++ natDecBytes k ++ [61] ++
            natDecBytes ((d :: rest).getD (k - (i + 1)) 0) ++ [10]) := by
      rw [ih (i + 1)]
      apply flatMapCongrOn
      intro k hk
      have hk2 : i + 2 ≤ k := mem_range'_lower _ _ _ hk
      have e : k - (i + 1) = (k - (i + 2)) + 1 := by omega
      rw [e, List.getD_cons_succ]
    rw [htail]

/-- Claim C9: for every extents list and float32 data slice the writer
emits, in this exact order: the comment line, `ndim=`n, `veclen=1`,
`nspace=`n, `field=uniform`, `data=float_le`, then for each `k` from 1 to
`n` the line `dimk=dims[k-1]`, then the sentinel bytes 0x0C 0x0C, then the
raw little-endian bytes of the data with no transformation. -/
theorem C9_writer_layout (dims : List Nat) (data : List F32) :
    AVSFile.write dims data = specWriterOutput dims data := by
  unfold AVSFile.write specWriterOutput specDimLines
  rw [dimLines_spec dims 0]
  simp [List.append_assoc]
